import Mathlib

/-!
Verification development for the legal-document placeholder engine.

JavaScript strings are embedded as `List Char`; the `string | null` type is
`Option (List Char)`.  Each definition translates one function of the
TypeScript source (`document-processor`, `ai-client`, `docx-generator`);
JavaScript built-ins used by that code (`trim`, `toLowerCase`, regexp
matching, `parseFloat`, `new Date(...)`) are modelled by explicit scanners
that mirror the engine's leftmost-match, greedy-with-backtracking semantics
for the concrete patterns appearing in the source.
-/

namespace Legal

/-- JavaScript string type: a list of characters. -/
abbrev Str := List Char

/-- The common JavaScript whitespace characters recognised by `\s`, `trim`
and `padStart`-adjacent operations.  (Exotic Unicode space code points are
not modelled; no theorem below touches them.) -/
def isJsWs (c : Char) : Bool :=
  c = ' ' || c = '\t' || c = '\n' || c = '\r' || c = '\x0b' || c = '\x0c'

/-- `String.prototype.trimStart`. -/
def jsTrimLeft (s : Str) : Str := s.dropWhile isJsWs

/-- `String.prototype.trimEnd`. -/
def jsTrimRight (s : Str) : Str := (s.reverse.dropWhile isJsWs).reverse

/-- `String.prototype.trim`. -/
def jsTrim (s : Str) : Str := jsTrimRight (jsTrimLeft s)

/-- `String.prototype.toLowerCase` (ASCII range; the source only lower-cases
ASCII identifiers and keywords). -/
def jsToLower (s : Str) : Str := s.map Char.toLower

/-- `String.prototype.toUpperCase` (ASCII range). -/
def jsToUpper (s : Str) : Str := s.map Char.toUpper

/-- `String.prototype.includes(sub)`. -/
def containsSub : Str → Str → Bool
  | hay, sub =>
    sub.isPrefixOf hay ||
      match hay with
      | [] => false
      | _ :: t => containsSub t sub

/-- Splits at the first occurrence of `sep` (a substring), returning the text
before it and the text after it; `none` when `sep` does not occur.  Used to
model `String.prototype.split(sep)` at the two indices the source reads. -/
def splitFirstSub (sep : Str) : Str → Option (Str × Str)
  | [] => if sep.isEmpty then some ([], []) else none
  | c :: t =>
    if sep.isPrefixOf (c :: t) then some ([], (c :: t).drop sep.length)
    else (splitFirstSub sep t).map (fun p => (c :: p.1, p.2))

/-- `split(sep)[1]` of JavaScript: the segment strictly between the first and
the second occurrence of `sep` (or everything after the first occurrence when
it is the only one).  `none` when `sep` does not occur at all. -/
def splitIndexOne (sep : Str) (s : Str) : Option Str :=
  match splitFirstSub sep s with
  | none => none
  | some (_, rest) =>
    match splitFirstSub sep rest with
    | none => some rest
    | some (pre, _) => some pre

/-- `String.prototype.split(sep)` for a one-character separator (keeps empty
segments, exactly like JavaScript). -/
def splitOnChar (sep : Char) : Str → List Str
  | [] => [[]]
  | c :: rest =>
    match splitOnChar sep rest with
    | [] => if c = sep then [[], []] else [[c]]
    | h :: t => if c = sep then [] :: h :: t else (c :: h) :: t

/-- Digit character for a value `0 ≤ d ≤ 9` (written as ten cases so that
facts about it are provable by `decide`). -/
def digitChar : Nat → Char
  | 0 => '0' | 1 => '1' | 2 => '2' | 3 => '3' | 4 => '4'
  | 5 => '5' | 6 => '6' | 7 => '7' | 8 => '8' | 9 => '9'
  | _ => '0'

/-- Numeric value of a digit character. -/
def charVal (c : Char) : Nat := c.toNat - 48

/-- Fuel-driven base-10 rendering (structural recursion, so that closed
instances reduce inside the kernel); `natChars` supplies enough fuel and
`natChars_eq` below recovers the natural recursion equation. -/
def natCharsAux : Nat → Nat → Str
  | 0, n => [digitChar n]
  | fuel + 1, n =>
    if n < 10 then [digitChar n]
    else natCharsAux fuel (n / 10) ++ [digitChar (n % 10)]

/-- `String(n)` for a natural number: base-10 rendering, no padding. -/
def natChars (n : Nat) : Str := natCharsAux n n

/-- Value of a big-endian digit string. -/
def digitsToNat (s : Str) : Nat := s.foldl (fun a c => 10 * a + charVal c) 0

/-- `String(n).padStart(2, '0')`. -/
def pad2 (n : Nat) : Str :=
  if (natChars n).length < 2 then '0' :: natChars n else natChars n

/-- Word character of the regexp `\b` / `\w` classes: `[A-Za-z0-9_]`. -/
def isWordChar (c : Char) : Bool := c.isAlphanum || c = '_'

/-- Word-ness of an optional neighbouring character (`none` = string edge,
which counts as non-word). -/
def wordness : Option Char → Bool
  | none => false
  | some c => isWordChar c

/-- A `\b` word boundary holds between two (optional) neighbouring
characters exactly when their word-ness differs. -/
def isBoundary (a b : Option Char) : Bool := wordness a != wordness b

/-! ## Data model (`src/lib/types.ts`) -/

/-- The `type` field of `Placeholder`. -/
inductive FieldType where
  | text | date | number | email | state
deriving DecidableEq, Repr

/-- `Placeholder` of `types.ts`.  `originalText` is declared `string` in
`types.ts`, but `detectPlaceholders` constructs its objects without it, so at
runtime the property can be absent (`undefined`): the embedding therefore
gives it type `Option Str`, with `none` for the absent property.  `value` is
`string | null`.  `description` is optional in `types.ts` but every
construction site in the repository supplies it, so it is embedded plain. -/
structure Placeholder where
  name : Str
  originalText : Option Str
  value : Option Str
  type : FieldType
  description : Str
deriving DecidableEq, Repr

/-- A conversation message.  The timestamp is opaque to every modelled
function and is embedded as a bare number. -/
structure Message where
  isUser : Bool
  content : Str
  timestamp : Nat
deriving DecidableEq, Repr

/-- JavaScript truthiness of a `string | null` value: `null` and the empty
string are falsy. -/
def truthy : Option Str → Bool
  | none => false
  | some s => !s.isEmpty

/-! ## Field detector (`detectPlaceholders` and helpers, part_000) -/

/-- One match of the global regexp `/\[([^\]]+)\]/g`: start offset, the full
matched text `match[0]`, and the captured interior `match[1]`. -/
structure BracketMatch where
  index : Nat
  full : Str
  inner : Str
deriving DecidableEq, Repr

/-- Successive matches of `/\[([^\]]+)\]/g` over the text, in the order the
`while ((match = bracketPattern.exec(text)))` loop visits them: at a `[` the
greedy `[^\]]+` takes everything up to the next `]` (one character minimum);
on failure the scan advances one position.  The source also keeps a
`seenPositions` set, but successive `exec` results have strictly increasing
indices, so that guard never fires and is not modelled. -/
def bracketMatchesAux : Nat → Nat → Str → List BracketMatch
  | 0, _, _ => []
  | fuel + 1, i, l =>
    match l with
    | [] => []
    | '[' :: rest =>
      let content := rest.takeWhile (fun c => c ≠ ']')
      match rest.drop content.length with
      | ']' :: tail =>
        if content.isEmpty then bracketMatchesAux fuel (i + 1) rest
        else
          ⟨i, '[' :: content ++ [']'], content⟩ ::
            bracketMatchesAux fuel (i + content.length + 2) tail
      | _ => bracketMatchesAux fuel (i + 1) rest
    | _ :: rest => bracketMatchesAux fuel (i + 1) rest

def bracketMatches (i : Nat) (l : Str) : List BracketMatch :=
  bracketMatchesAux l.length i l

/-- The lower-cased context window around a match: 80 characters before the
match to 20 characters after it (clamped to the text). -/
def contextOf (text : Str) (m : BracketMatch) : Str :=
  let start := m.index - 80
  let stop := min text.length (m.index + m.full.length + 20)
  jsToLower ((text.drop start).take (stop - start))

/-- `/^[_\s]+$/.test(content)`: non-empty and only underscores/whitespace. -/
def isBlankContent (content : Str) : Bool :=
  !content.isEmpty && content.all (fun c => c = '_' || isJsWs c)

/-- Collapses every run of consecutive underscores to a single one. -/
def collapseUnderscores : Str → Str
  | [] => []
  | [c] => [c]
  | a :: b :: rest =>
    if a = '_' && b = '_' then collapseUnderscores (b :: rest)
    else a :: collapseUnderscores (b :: rest)

/-- Name normalisation of a named placeholder:
`content.toUpperCase().replace(/[^A-Z0-9]+/g, '_').replace(/^_+|_+$/g, '')`.
Replacing each non-`[A-Z0-9]` character by `'_'` and then collapsing
underscore runs is the same as replacing each maximal non-`[A-Z0-9]` run by a
single underscore. -/
def normalizeName (content : Str) : Str :=
  let upper := jsToUpper content
  let mapped := upper.map (fun c => if c.isUpper || c.isDigit then c else '_')
  (collapseUnderscores mapped).dropWhile (fun c => c = '_')
    |>.reverse.dropWhile (fun c => c = '_') |>.reverse

/-- `inferFromContext(context, currentCount)` of part_000.  The
`currentCount` parameter exists in the source but is never read. -/
def inferFromContext (context : Str) (currentCount : Nat) :
    Option (Str × Str × FieldType) :=
  if containsSub context "company".data &&
      (containsSub context "name".data || containsSub context "corporation".data) then
    some ("COMPANY_NAME".data, "Company name".data, FieldType.text)
  else if containsSub context "investor".data && containsSub context "name".data then
    some ("INVESTOR_NAME".data, "Investor name".data, FieldType.text)
  else if containsSub context "$".data || containsSub context "purchase amount".data ||
      containsSub context "investment".data then
    some ("PURCHASE_AMOUNT".data, "Investment amount".data, FieldType.number)
  else if containsSub context "date".data || containsSub context "day of".data then
    some ("DATE".data, "Date".data, FieldType.date)
  else if containsSub context "valuation cap".data || containsSub context "post-money".data then
    some ("VALUATION_CAP".data, "Valuation cap".data, FieldType.number)
  else if containsSub context "state of".data || containsSub context "incorporated in".data then
    some ("STATE".data, "State".data, FieldType.text)
  else
    none

/-- Title-cases one word the way the source does:
`w.charAt(0) + w.slice(1).toLowerCase()`. -/
def titleWord : Str → Str
  | [] => []
  | c :: rest => c :: jsToLower rest

/-- `getPlaceholderDetails(name)` of part_000: `(description, type)`. -/
def getPlaceholderDetails (name : Str) : Str × FieldType :=
  let lower := jsToLower name
  if containsSub lower "date".data || containsSub lower "deadline".data then
    ("Date".data, FieldType.date)
  else if containsSub lower "email".data || containsSub lower "mail".data then
    ("Email address".data, FieldType.email)
  else if containsSub lower "amount".data || containsSub lower "price".data ||
      containsSub lower "valuation".data || containsSub lower "cap".data ||
      containsSub lower "value".data || containsSub lower "cost".data then
    let spaced := name.map (fun c => if c = '_' then ' ' else c)
    (List.intercalate " ".data ((splitOnChar ' ' spaced).map titleWord),
      FieldType.number)
  else if containsSub lower "state".data then
    ("State".data, FieldType.text)
  else
    (List.intercalate " ".data ((splitOnChar '_' name).map titleWord),
      FieldType.text)

/-- The loop body of `detectPlaceholders` for one bracket match, up to the
de-duplicating map insertion: the placeholder this match contributes, or
`none` when the match is skipped (empty trimmed content, a blank whose
context matches no inference rule, or a name that normalises to the empty
string).  Note that the constructed object carries no `originalText`
(the source's object literal at part_000 lines 85–90 omits the property
required by `types.ts`). -/
def candidateOf (text : Str) (currentCount : Nat) (m : BracketMatch) :
    Option Placeholder :=
  let content := jsTrim m.inner
  if content.isEmpty then none
  else if isBlankContent content then
    match inferFromContext (contextOf text m) currentCount with
    | none => none
    | some (n, d, t) =>
      some { name := n, originalText := none, value := none, type := t,
             description := d }
  else
    let name := normalizeName content
    if name.isEmpty then none
    else
      let details := getPlaceholderDetails name
      some { name := name, originalText := none, value := none,
             type := details.2, description := details.1 }

/-- `detectPlaceholders(text)` of part_000: successive bracket matches are
folded through a name-keyed map (`if (!placeholders.has(name))`), exported in
insertion order. -/
def detectPlaceholders (text : Str) : List Placeholder :=
  (bracketMatches 0 text).foldl
    (fun acc m =>
      match candidateOf text acc.length m with
      | none => acc
      | some p =>
        if acc.any (fun q => decide (q.name = p.name)) then acc
        else acc ++ [p])
    []

/-- Analysis decomposition of `detectPlaceholders`: the placeholder each
bracket match contributes before de-duplication, in match order.  (The
`currentCount` argument of `candidateOf` is never read, so a fixed 0 is
interchangeable with the running map size of the fold.) -/
def detectionCandidates (text : Str) : List Placeholder :=
  (bracketMatches 0 text).filterMap (candidateOf text 0)

/-- First-occurrence de-duplication of a name list, for stating the order
of the detector's output. -/
def dedupFirstSeen (ns : List Str) : List Str :=
  ns.foldl (fun acc n => if n ∈ acc then acc else acc ++ [n]) []

/-! ## `parseFloat` and number formatting (JavaScript built-ins) -/

/-- A finite JavaScript number as an exact decimal `mant / 10 ^ scale`.
`parseFloat` values are modelled exactly rather than as binary doubles:
every comparison the source performs on them (`isNaN`, `<= 0`, `< 1000`)
agrees for the digit strings its extraction tiers produce. -/
structure DecValue where
  mant : Int
  scale : Nat
deriving DecidableEq, Repr

/-- `x <= n` for an integer bound `n`. -/
def DecValue.leInt (x : DecValue) (n : Int) : Bool := x.mant ≤ n * (10 : Int) ^ x.scale

/-- `x < n` for an integer bound `n`. -/
def DecValue.ltInt (x : DecValue) (n : Int) : Bool := x.mant < n * (10 : Int) ^ x.scale

/-- Exponent part of a `parseFloat` literal (`e`/`E` already consumed):
an optional sign and a digit run; an empty digit run means the exponent
marker is trailing junk and contributes factor one. -/
def parseExpPart : Str → Int
  | '-' :: r =>
    let d := r.takeWhile Char.isDigit
    if d.isEmpty then 0 else -(digitsToNat d : Int)
  | '+' :: r =>
    let d := r.takeWhile Char.isDigit
    if d.isEmpty then 0 else (digitsToNat d : Int)
  | r =>
    let d := r.takeWhile Char.isDigit
    if d.isEmpty then 0 else (digitsToNat d : Int)

/-- `parseFloat(s)`: leading whitespace skipped, optional sign, decimal
mantissa, optional exponent, trailing junk ignored; `none` is `NaN`.  The
`Infinity` literal and hex forms are not modelled (no modelled call site
can receive them). -/
def jsParseFloat (s : Str) : Option DecValue :=
  let t := s.dropWhile isJsWs
  let signAndRest : Bool × Str :=
    match t with
    | '-' :: r => (true, r)
    | '+' :: r => (false, r)
    | _ => (false, t)
  let t1 := signAndRest.2
  let ip := t1.takeWhile Char.isDigit
  let r1 := t1.drop ip.length
  let fracAndRest : Str × Str :=
    match r1 with
    | '.' :: r => (r.takeWhile Char.isDigit, r.drop (r.takeWhile Char.isDigit).length)
    | _ => ([], r1)
  let fp := fracAndRest.1
  if ip.isEmpty && fp.isEmpty then none
  else
    let mant0 : Nat := digitsToNat (ip ++ fp)
    let scale0 : Nat := fp.length
    let e : Int :=
      match fracAndRest.2 with
      | 'e' :: rest => parseExpPart rest
      | 'E' :: rest => parseExpPart rest
      | _ => 0
    let scaled : Nat × Nat :=
      if e ≥ 0 then (mant0 * 10 ^ e.toNat, scale0) else (mant0, scale0 + (-e).toNat)
    some ⟨if signAndRest.1 then -(scaled.1 : Int) else (scaled.1 : Int), scaled.2⟩

/-- `round(x * 100)` with ties away from zero (the rounding of
`toLocaleString`). -/
def roundHalfAway100 (x : DecValue) : Int :=
  let b := 10 ^ x.scale
  let r := (2 * (x.mant.natAbs * 100) + b) / (2 * b)
  if x.mant < 0 then -(r : Int) else (r : Int)

/-- Inserts a comma after every three characters (called on the reversed
digit string). -/
def chunk3 : Str → Str
  | a :: b :: c :: d :: rest => a :: b :: c :: ',' :: chunk3 (d :: rest)
  | l => l

/-- `en-US` thousands grouping of an integer digit string. -/
def groupThousands (ds : Str) : Str := (chunk3 ds.reverse).reverse

/-- `num.toLocaleString('en-US', { minimumFractionDigits: 0,
maximumFractionDigits: 2 })`: round to at most two fractional digits,
group thousands, trim trailing fractional zeros. -/
def formatNumberEnUS (q : DecValue) : Str :=
  let n := roundHalfAway100 q
  let m := n.natAbs
  let ip := m / 100
  let fp := m % 100
  let fracPart : Str :=
    if fp = 0 then []
    else if fp % 10 = 0 then ['.', digitChar (fp / 10)]
    else ['.', digitChar (fp / 10), digitChar (fp % 10)]
  (if n < 0 then ['-'] else []) ++ groupThousands (natChars ip) ++ fracPart

/-! ## Tier 1 pattern matchers (`extractValueFromMessage`, part_003)

Each regexp of the source is modelled by a scanner with JavaScript
semantics: positions are tried left to right, quantifiers are greedy and
backtrack, the first overall success wins. -/

/-- Scanner for `/\$\s*([0-9,]+(?:\.[0-9]{2})?)/`: the returned string is
the capture group (digits/commas, optional two-digit fraction). -/
def dollarScan : Str → Option Str
  | [] => none
  | '$' :: rest =>
    let r1 := rest.dropWhile isJsWs
    let digs := r1.takeWhile (fun c => c.isDigit || c = ',')
    if digs.isEmpty then dollarScan rest
    else
      match r1.drop digs.length with
      | '.' :: a :: b :: _ =>
        if a.isDigit && b.isDigit then some (digs ++ ['.', a, b]) else some digs
      | _ => some digs
  | _ :: rest => dollarScan rest

/-- `[0-9,]` class of the bare-number pattern. -/
def isNumTok (c : Char) : Bool := c.isDigit || c = ','

/-- Backtracking core of `/\b([0-9,]+(?:\.[0-9]+)?)\b/` at a fixed start
position: the token run is tried from length `k` downwards, at each length
first with the greedy full fraction, then without one.  (A partially
shortened fraction run can never satisfy the trailing `\b` — the characters
on both sides of the cut are digits — so only those two options exist.) -/
def bareNumTry (l : Str) : Nat → Option Str
  | 0 => none
  | k + 1 =>
    let taken := l.take (k + 1)
    let rest := l.drop (k + 1)
    let withFrac : Option Str :=
      match rest with
      | '.' :: r =>
        let fr := r.takeWhile Char.isDigit
        if fr.isEmpty then none
        else if wordness (r.drop fr.length).head? = false then some (taken ++ '.' :: fr)
        else none
      | _ => none
    match withFrac with
    | some res => some res
    | none =>
      if isBoundary taken.getLast? rest.head? then some taken
      else bareNumTry l k

/-- Attempt of the bare-number pattern at the head of `l` (leading `\b`
already checked by the scanner). -/
def bareNumAt (l : Str) : Option Str :=
  let run := l.takeWhile isNumTok
  if run.isEmpty then none else bareNumTry l run.length

/-- Scanner for `/\b([0-9,]+(?:\.[0-9]+)?)\b/`; `prev` is the character
before the current position (`none` at the string edge), needed because the
class `[0-9,]` contains the non-word character `,`. -/
def scanNum : Option Char → Str → Option Str
  | _, [] => none
  | prev, c :: rest =>
    match (if isBoundary prev (some c) then bareNumAt (c :: rest) else none) with
    | some m => some m
    | none => scanNum (some c) rest

/-- Generic scanner for a pattern of the form `\b` followed by a word-class
character: at such a position `\b` holds exactly when the previous character
is a non-word one, so a per-position matcher suffices. -/
def scanBW (matchAt : Str → Option Str) : Option Char → Str → Option Str
  | _, [] => none
  | prev, c :: rest =>
    match (if wordness prev = false then matchAt (c :: rest) else none) with
    | some m => some m
    | none => scanBW matchAt (some c) rest

/-- `\d{1,2}` with its backtracking alternatives, longest first: each entry
is (matched digits, remaining input). -/
def comp12 : Str → List (Str × Str)
  | a :: b :: rest =>
    if a.isDigit then
      if b.isDigit then [([a, b], rest), ([a], b :: rest)] else [([a], b :: rest)]
    else []
  | [a] => if a.isDigit then [([a], [])] else []
  | [] => []

/-- `\d{4}`. -/
def take4digits : Str → Option (Str × Str)
  | a :: b :: c :: d :: rest =>
    if a.isDigit && b.isDigit && c.isDigit && d.isDigit then some ([a, b, c, d], rest)
    else none
  | _ => none

/-- Tail `\d{1,2} sep \d{4}\b` of the numeric date patterns. -/
def dmyTailAt (sep : Char) (l : Str) : Option Str :=
  (comp12 l).findSome? (fun p =>
    match p.2 with
    | c :: r2 =>
      if c = sep then
        match take4digits r2 with
        | some (ys, r3) =>
          if wordness r3.head? = false then some (p.1 ++ c :: ys) else none
        | none => none
      else none
    | [] => none)

/-- `\d{1,2} sep \d{1,2} sep \d{4}\b` at the head of `l` (used for
`/\b(\d{1,2}\/\d{1,2}\/\d{4})\b/` and its `-` variant). -/
def dmyAt (sep : Char) (l : Str) : Option Str :=
  (comp12 l).findSome? (fun p =>
    match p.2 with
    | c :: r2 =>
      if c = sep then (dmyTailAt sep r2).map (fun t => p.1 ++ c :: t) else none
    | [] => none)

/-- `[A-Z]` of the case-sensitive patterns. -/
def isUpperAZ (c : Char) : Bool := 'A' ≤ c && c ≤ 'Z'

/-- `[a-z]`. -/
def isLowerAZ (c : Char) : Bool := 'a' ≤ c && c ≤ 'z'

/-- `[A-Za-z][A-Za-z]{2,8}` prefix of `/\b([A-Z][a-z]{2,8}\s+\d{1,2},?\s+\d{4})\b/i`:
all backtracking alternatives of the greedy letter run, longest first. -/
def monthWordAt : Str → List (Str × Str)
  | [] => []
  | c :: rest =>
    if c.isAlpha then
      let run := rest.takeWhile Char.isAlpha
      let kmax := min 8 run.length
      (((List.range (kmax + 1)).filter (fun k => 2 ≤ k)).reverse).map
        (fun k => (c :: run.take k, rest.drop k))
    else []

/-- Tail `\s+\d{1,2},?\s+\d{4}\b` of the textual date pattern. -/
def monthRestAt (l : Str) : Option Str :=
  let ws1 := l.takeWhile isJsWs
  if ws1.isEmpty then none
  else
    let r1 := l.drop ws1.length
    (comp12 r1).findSome? (fun p =>
      let afterComma : List (Str × Str) :=
        match p.2 with
        | ',' :: r3 => [([','], r3), ([], p.2)]
        | _ => [([], p.2)]
      afterComma.findSome? (fun q =>
        let ws2 := q.2.takeWhile isJsWs
        if ws2.isEmpty then none
        else
          match take4digits (q.2.drop ws2.length) with
          | some (ys, r4) =>
            if wordness r4.head? = false then some (ws1 ++ p.1 ++ q.1 ++ ws2 ++ ys)
            else none
          | none => none))

/-- The full textual date pattern at the head of `l`. -/
def monthMatchAt (l : Str) : Option Str :=
  (monthWordAt l).findSome? (fun p => (monthRestAt p.2).map (fun t => p.1 ++ t))

/-- Month-name lookup of the `new Date("Month DD, YYYY")` parser: the
engine accepts a case-insensitive prefix of an English month name of at
least three letters ("Dec", "December"). -/
def monthNames : List Str :=
  ["january".data, "february".data, "march".data, "april".data, "may".data,
   "june".data, "july".data, "august".data, "september".data, "october".data,
   "november".data, "december".data]

def monthNumber (w : Str) : Option Nat :=
  let lw := jsToLower w
  match monthNames.findIdx? (fun nm => decide (3 ≤ lw.length) && lw.isPrefixOf nm) with
  | some i => some (i + 1)
  | none => none

def isLeapYear (y : Nat) : Bool := (y % 4 = 0 && y % 100 ≠ 0) || y % 400 = 0

def daysInMonth (m y : Nat) : Nat :=
  if m = 2 then (if isLeapYear y then 29 else 28)
  else if m = 4 || m = 6 || m = 9 || m = 11 then 30
  else 31

/-- `new Date(s)` for a `M sep D sep YYYY` numeric string: the month, day
and year components when they form a real calendar date.  The engine's
lenient rollover of out-of-range components and its two-digit-year
heuristic are not modelled; every theorem below evaluates this model only
on in-range dates with four-digit years `≥ 1000`. -/
def parseNumericDate (sep : Char) (s : Str) : Option (Nat × Nat × Nat) :=
  match splitOnChar sep s with
  | [ms, ds, ys] =>
    if ms.isEmpty || ds.isEmpty || ys.isEmpty ||
        !(ms.all Char.isDigit && ds.all Char.isDigit && ys.all Char.isDigit) then none
    else
      let m := digitsToNat ms
      let d := digitsToNat ds
      let y := digitsToNat ys
      if 1 ≤ m && m ≤ 12 && 1 ≤ d && d ≤ daysInMonth m y then some (m, d, y) else none
  | _ => none

/-- `new Date(s)` for a `Month DD, YYYY` textual string. -/
def parseMonthNameDate (s : Str) : Option (Nat × Nat × Nat) :=
  let w := s.takeWhile Char.isAlpha
  let r1 := (s.drop w.length).dropWhile isJsWs
  let ds := r1.takeWhile Char.isDigit
  let r2 := r1.drop ds.length
  let r3 :=
    match r2 with
    | ',' :: r => r.dropWhile isJsWs
    | _ => r2.dropWhile isJsWs
  let ys := r3.takeWhile Char.isDigit
  if w.isEmpty || ds.isEmpty || ys.isEmpty || !(r3.drop ys.length).isEmpty then none
  else
    match monthNumber w with
    | none => none
    | some m =>
      let d := digitsToNat ds
      let y := digitsToNat ys
      if 1 ≤ d && d ≤ daysInMonth m y then some (m, d, y) else none

/-- `new Date(s)` restricted to the three capture shapes the date tier
feeds it, dispatching on the separator present in the string. -/
def jsDateParse (s : Str) : Option (Nat × Nat × Nat) :=
  if s.contains '/' then parseNumericDate '/' s
  else if s.contains '-' then parseNumericDate '-' s
  else parseMonthNameDate s

/-- `MM/DD/YYYY` rendering with zero-padded month and day (the source's
`padStart(2, '0')` on month/day, bare `String(...)` on the year). -/
def fmtMDY (m d y : Nat) : Str := pad2 m ++ '/' :: pad2 d ++ '/' :: natChars y

/-- The date branch of `extractValueFromMessage`: the three patterns are
tried in order; a pattern whose match does not parse to a valid date falls
through to the next pattern. -/
def extractDateValue (tm : Str) : Option Str :=
  match (scanBW (dmyAt '/') none tm).bind jsDateParse with
  | some (m, d, y) => some (fmtMDY m d y)
  | none =>
    match (scanBW (dmyAt '-') none tm).bind jsDateParse with
    | some (m, d, y) => some (fmtMDY m d y)
    | none =>
      match (scanBW monthMatchAt none tm).bind jsDateParse with
      | some (m, d, y) => some (fmtMDY m d y)
      | none => none

/-! ## Tier 1 text matchers -/

/-- The alternation `(it'?s?|the|my|our|is|are|will be|should be)` in the
order the engine tries it (the optional quantifiers expand greedily). -/
def filler1Alts : List Str :=
  ["it's".data, "it'".data, "its".data, "it".data, "the".data, "my".data,
   "our".data, "is".data, "are".data, "will be".data, "should be".data]

def filler2Alts : List Str :=
  ["company name is".data, "investor name is".data, "name is".data]

/-- `.replace(/^(alt1|alt2|...)\s+/i, '')`: the first alternative that is a
case-insensitive prefix and is followed by whitespace is removed together
with the greedy whitespace run; otherwise the string is unchanged. -/
def stripLeadAlt (alts : List Str) (s : Str) : Str :=
  match alts.findSome? (fun alt =>
    if alt.isPrefixOf (jsToLower s) then
      let r := s.drop alt.length
      let ws := r.takeWhile isJsWs
      if ws.isEmpty then none else some (r.drop ws.length)
    else none) with
  | some r => r
  | none => s

/-- `.replace(/[.!?]$/g, '')`: removes one trailing punctuation character. -/
def stripEndPunct (s : Str) : Str :=
  match s.getLast? with
  | some c => if c = '.' || c = '!' || c = '?' then s.dropLast else s
  | none => s

def isQuote (c : Char) : Bool := c = '"' || c = '\''

/-- Scanner for `/["']([^"']+)["']/` (opening and closing quotes need not
agree); returns the capture group. -/
def quotedScan : Str → Option Str
  | [] => none
  | c :: rest =>
    if isQuote c then
      let inner := rest.takeWhile (fun d => !isQuote d)
      if inner.isEmpty then quotedScan rest
      else
        match rest.drop inner.length with
        | d :: _ => if isQuote d then some inner else quotedScan rest
        | [] => quotedScan rest
    else quotedScan rest

/-- One word `[A-Z][a-z]+` at the head of `l`.  (Shortening the greedy
lowercase run can never rescue a later `\s+` or `\b` — the character after a
shortened run is another lowercase letter — so only the maximal run is a
candidate.) -/
def capWordAt : Str → Option (Str × Str)
  | c :: rest =>
    if isUpperAZ c then
      let run := rest.takeWhile isLowerAZ
      if run.isEmpty then none else some (c :: run, rest.drop run.length)
    else none
  | [] => none

/-- All prefixes reachable by `(?:\s+[A-Z][a-z]+)*` after an initial word,
in order of increasing extension count (the caller reverses for greedy
order); each entry is (text matched so far, remaining input). -/
def capChainExts (acc : Str) (rest : Str) : Nat → List (Str × Str)
  | 0 => [(acc, rest)]
  | fuel + 1 =>
    let ws := rest.takeWhile isJsWs
    if ws.isEmpty then [(acc, rest)]
    else
      match capWordAt (rest.drop ws.length) with
      | some (w, r2) => (acc, rest) :: capChainExts (acc ++ ws ++ w) r2 fuel
      | none => [(acc, rest)]

def corpSuffixes : List Str := ["Inc".data, "LLC".data, "Corp".data, "Ltd".data]

/-- Alternatives of `(?:\s+(?:Inc|LLC|Corp|Ltd)\.?)?` in engine order:
each suffix with its optional dot (dot first), then the empty option. -/
def suffixOptions (rest : Str) : List (Str × Str) :=
  (let ws := rest.takeWhile isJsWs
   if ws.isEmpty then []
   else
     let r := rest.drop ws.length
     corpSuffixes.foldr (fun sfx acc =>
       (if sfx.isPrefixOf r then
          let r2 := r.drop sfx.length
          match r2 with
          | '.' :: r3 => [(ws ++ sfx ++ ['.'], r3), (ws ++ sfx, r2)]
          | _ => [(ws ++ sfx, r2)]
        else []) ++ acc) [])
  ++ [([], rest)]

/-- `/\b([A-Z][a-z]+(?:\s+[A-Z][a-z]+)*(?:\s+(?:Inc|LLC|Corp|Ltd)\.?)?)\b/`
at the head of `l`. -/
def nameMatchAt (l : Str) : Option Str :=
  match capWordAt l with
  | none => none
  | some (w, rest) =>
    ((capChainExts w rest rest.length).reverse).findSome? (fun p =>
      (suffixOptions p.2).findSome? (fun q =>
        if isBoundary (p.1 ++ q.1).getLast? q.2.head? then some (p.1 ++ q.1) else none))

/-- `/\b([A-Z]{2})\b/` at the head of `l`. -/
def stateCodeAt : Str → Option Str
  | a :: b :: rest =>
    if isUpperAZ a && isUpperAZ b && wordness rest.head? = false then some [a, b] else none
  | _ => none

/-- `/\b([A-Z][a-z]+(?:\s+[A-Z][a-z]+)?)\b/` at the head of `l`. -/
def stateNameAt (l : Str) : Option Str :=
  match capWordAt l with
  | none => none
  | some (w, rest) =>
    let two : Option Str :=
      let ws := rest.takeWhile isJsWs
      if ws.isEmpty then none
      else
        match capWordAt (rest.drop ws.length) with
        | some (w2, r2) =>
          if isBoundary w2.getLast? r2.head? then some (w ++ ws ++ w2) else none
        | none => none
    match two with
    | some m => some m
    | none => if isBoundary w.getLast? rest.head? then some w else none

/-- The text branch of `extractValueFromMessage`. -/
def extractTextValue (trimmedMsg : Str) (p : Placeholder) : Option Str :=
  let cleaned :=
    jsTrim (stripEndPunct (stripLeadAlt filler2Alts (stripLeadAlt filler1Alts trimmedMsg)))
  match quotedScan cleaned with
  | some q => some (jsTrim q)
  | none =>
    let nameStep : Option Str :=
      if containsSub p.name "NAME".data then
        match scanBW nameMatchAt none cleaned with
        | some m => some m
        | none =>
          if !cleaned.isEmpty && decide (cleaned.length < 100) then some cleaned else none
      else none
    match nameStep with
    | some v => some v
    | none =>
      let stateStep : Option Str :=
        if containsSub p.name "STATE".data then
          match scanBW stateCodeAt none cleaned with
          | some m => some m
          | none => scanBW stateNameAt none cleaned
        else none
      match stateStep with
      | some v => some v
      | none =>
        if !cleaned.isEmpty && decide (cleaned.length < 200) then some cleaned else none

/-- `extractValueFromMessage(message, placeholder)` of part_003.  The
source's three sequential `if` blocks are keyed by mutually exclusive type
tests; the types with no block (`email`, `state`) reach the final
`return null`. -/
def extractValueFromMessage (message : Str) (p : Placeholder) : Option Str :=
  let trimmedMsg := jsTrim message
  match p.type with
  | FieldType.number =>
    (match dollarScan trimmedMsg with
     | some cap => some (cap.filter (fun c => c ≠ ','))
     | none =>
       match scanNum none trimmedMsg with
       | some cap => some (cap.filter (fun c => c ≠ ','))
       | none => none)
  | FieldType.date => extractDateValue trimmedMsg
  | FieldType.text => extractTextValue trimmedMsg p
  | FieldType.email => none
  | FieldType.state => none

/-! ## Validator / formatter (`validateValue`, `formatValue`, part_003) -/

inductive VResult where
  | valid
  | invalid (feedback : Str)
deriving DecidableEq, Repr

/-- The 51-entry state-code table of `validateValue`. -/
def validStates : List Str :=
  (["AL", "AK", "AZ", "AR", "CA", "CO", "CT", "DE", "FL", "GA", "HI", "ID",
    "IL", "IN", "IA", "KS", "KY", "LA", "ME", "MD", "MA", "MI", "MN", "MS",
    "MO", "MT", "NE", "NV", "NH", "NJ", "NM", "NY", "NC", "ND", "OH", "OK",
    "OR", "PA", "RI", "SC", "SD", "TN", "TX", "UT", "VT", "VA", "WA", "WV",
    "WI", "WY", "DC"].map String.data)

/-- `/^\d{1,2}\/\d{1,2}\/\d{4}$/.test(value)`. -/
def matchesDatePattern (s : Str) : Bool :=
  match splitOnChar '/' s with
  | [a, b, c] =>
    !a.isEmpty && a.length ≤ 2 && a.all Char.isDigit &&
    !b.isEmpty && b.length ≤ 2 && b.all Char.isDigit &&
    c.length == 4 && c.all Char.isDigit
  | _ => false

/-- `validateValue(value, placeholder)` of part_003.  The source's four
`if` blocks are sequential, but each is keyed by the placeholder type, so
the fall-through to `return { valid: true }` is per type. -/
def validateValue (value : Str) (p : Placeholder) : VResult :=
  if p.type = FieldType.number then
    match jsParseFloat (value.filter (fun c => c ≠ ',')) with
    | none =>
      VResult.invalid "That does not look like a valid number. Please enter digits only (e.g., 500000).".data
    | some num =>
      if num.leInt 0 then
        VResult.invalid "The amount should be greater than zero. Please enter a valid amount.".data
      else if containsSub p.name "AMOUNT".data && num.ltInt 1000 then
        VResult.invalid "That seems quite low for an investment amount. Did you mean to enter a larger number? (e.g., 50000)".data
      else VResult.valid
  else if p.type = FieldType.date then
    if !matchesDatePattern value then
      VResult.invalid "Please use MM/DD/YYYY format for the date (e.g., 12/31/2024).".data
    else if (jsDateParse value).isNone then
      VResult.invalid "That does not look like a valid date. Please use MM/DD/YYYY format.".data
    else VResult.valid
  else if p.type = FieldType.text && containsSub p.name "STATE".data &&
      value.length == 2 && !(validStates.contains (jsToUpper value)) then
    VResult.invalid ("\"".data ++ value ++ "\" is not a valid US state code. Please enter a valid 2-letter state code (e.g., CA, NY, TX).".data)
  else if p.type = FieldType.text && decide (value.length < 2) then
    VResult.invalid "That seems too short. Could you provide a complete answer?".data
  else VResult.valid

/-- `formatValue(value, placeholder)` of part_003 (a non-parsing number
falls through its block to the final `return value.trim()`). -/
def formatValue (value : Str) (p : Placeholder) : Str :=
  if p.type = FieldType.number then
    match jsParseFloat (value.filter (fun c => c ≠ ',')) with
    | some num => formatNumberEnUS num
    | none => jsTrim value
  else if p.type = FieldType.state then jsToUpper value
  else jsTrim value

/-! ## Tier 2 / Tier 3 external calls (part_003)

`callCloudflareAI` performs one HTTP round trip: a transport error, a
non-OK status or a thrown exception all land in the caller's `catch`, and a
successful call yields the response body text.  The environment record
fixes the configuration flag and the outcome of each of the two possible
calls, making the modelled functions total; the `catch { return null }` of
the source is what justifies collapsing every failure to `none`. -/

inductive AICallOutcome where
  | failure
  | success (body : Str)
deriving DecidableEq, Repr

structure AIEnv where
  enabled : Bool
  extractCall : AICallOutcome
  clarifyCall : AICallOutcome
deriving DecidableEq, Repr

/-- Parsing of the Tier 2 response:
`aiResponse.split('EXTRACTED:')[1].trim().split('\n')[0].trim()`, with the
empty result coerced to `null` by `extracted || null`. -/
def parseExtractedToken (body : Str) : Option Str :=
  if containsSub body "EXTRACTED:".data then
    match splitIndexOne "EXTRACTED:".data body with
    | none => none
    | some seg =>
      let extracted := jsTrim ((jsTrim seg).takeWhile (fun c => c ≠ '\n'))
      if extracted.isEmpty then none else some extracted
  else none

/-- `extractWithAI` of part_003. -/
def extractWithAI (env : AIEnv) (userMessage : Str) (p : Placeholder)
    (history : List Message) : Option Str :=
  if !env.enabled then none
  else
    match env.extractCall with
    | AICallOutcome.failure => none
    | AICallOutcome.success body => parseExtractedToken body

/-- `generateClarificationWithAI` of part_003 (returns the trimmed body of
a successful call). -/
def generateClarificationWithAI (env : AIEnv) (userMessage : Str)
    (p : Placeholder) : Option Str :=
  if !env.enabled then none
  else
    match env.clarifyCall with
    | AICallOutcome.failure => none
    | AICallOutcome.success body => some (jsTrim body)

/-- `buildDefaultClarification(placeholder)` of part_003. -/
def buildDefaultClarification (p : Placeholder) : Str :=
  "I'm not sure I caught that. Could you provide the **".data ++ p.description ++
    "**?".data ++
    (if p.type = FieldType.number then " Just enter the number (e.g., 500000).".data
     else if p.type = FieldType.date then " Please use MM/DD/YYYY format (e.g., 12/23/2024).".data
     else if containsSub p.name "STATE".data then " Please use a 2-letter state code (e.g., CA, NY, TX).".data
     else " Please enter the value clearly.".data)

/-- Lines 405–417 of part_003: the Tier 3 clarification actually emitted
(an AI clarification when configured and non-empty, the deterministic
template otherwise). -/
def tier3Response (env : AIEnv) (userMessage : Str) (p : Placeholder) : Str :=
  if env.enabled then
    match generateClarificationWithAI env userMessage p with
    | some s => if !s.isEmpty then s else buildDefaultClarification p
    | none => buildDefaultClarification p
  else buildDefaultClarification p

/-! ## Conversation orchestrator (`processConversation`, part_003) -/

def confirmationWords : List Str :=
  ["yes".data, "yeah".data, "yep".data, "correct".data, "right".data,
   "sure".data, "ok".data, "okay".data]

def isConfirmation (userMessage : Str) : Bool :=
  confirmationWords.contains (jsTrim (jsToLower userMessage))

/-- Type-specific hint appended to the "what's next" prompts. -/
def promptHint (p : Placeholder) : Str :=
  if p.type = FieldType.number then " (enter a number, e.g., 500000)".data
  else if p.type = FieldType.date then " (MM/DD/YYYY format)".data
  else if containsSub p.name "STATE".data then " (2-letter state code, e.g., CA)".data
  else []

def allCompleteMsg : Str :=
  "🎉 Perfect! All fields are complete. Review the values on the left, then click **'Download Completed Document'** when ready.".data

/-- `currentPlaceholder.value = formattedValue`: the found object is the
first array entry with a falsy `value`, and the assignment replaces that
field in place. -/
def setFirstUnfilled (ps : List Placeholder) (v : Str) : List Placeholder :=
  match ps with
  | [] => []
  | p :: rest =>
    if !truthy p.value then { p with value := some v } :: rest
    else p :: setFirstUnfilled rest v

structure ConvResult where
  response : Str
  updatedPlaceholders : List Placeholder
  isComplete : Bool
deriving DecidableEq, Repr

/-- `processConversation(userMessage, placeholders, conversationHistory)`
of part_003.  `const updatedPlaceholders = [...placeholders]` copies the
array but shares the `Placeholder` objects, so the single mutation site
(`currentPlaceholder.value = formattedValue`) writes through both the copy
and the caller's array; the embedding therefore carries one list that plays
both roles. -/
def processConversation (env : AIEnv) (userMessage : Str)
    (placeholders : List Placeholder) (history : List Message) : ConvResult :=
  if isConfirmation userMessage then
    match placeholders.find? (fun p => !truthy p.value) with
    | some nextP =>
      { response := "Great! Now, what's the **".data ++ nextP.description ++
          "**?".data ++ promptHint nextP,
        updatedPlaceholders := placeholders, isComplete := false }
    | none =>
      { response := allCompleteMsg, updatedPlaceholders := placeholders,
        isComplete := true }
  else
    match placeholders.find? (fun p => !truthy p.value) with
    | none =>
      { response := "🎉 All fields are complete! Click **'Download Completed Document'** when ready.".data,
        updatedPlaceholders := placeholders, isComplete := true }
    | some current =>
      let tier1 := extractValueFromMessage userMessage current
      let extracted :=
        if tier1.isNone && env.enabled then extractWithAI env userMessage current history
        else tier1
      match extracted with
      | some v =>
        match validateValue v current with
        | VResult.invalid fb =>
          { response := "⚠️ ".data ++ fb, updatedPlaceholders := placeholders,
            isComplete := false }
        | VResult.valid =>
          let fv := formatValue v current
          let updated := setFirstUnfilled placeholders fv
          let complete := updated.all (fun p => truthy p.value)
          let ack := "✓ Got it! **".data ++ current.description ++ "**: ".data ++ fv
          let response :=
            if complete then ack ++ "\n\n".data ++ allCompleteMsg
            else
              match updated.find? (fun p => !truthy p.value) with
              | some nextP =>
                ack ++ "\n\nNext, what's the **".data ++ nextP.description ++
                  "**?".data ++ promptHint nextP
              | none => ack
          { response := response, updatedPlaceholders := updated,
            isComplete := complete }
      | none =>
        { response := tier3Response env userMessage current,
          updatedPlaceholders := placeholders, isComplete := false }

/-- The caller's array as observed after `processConversation` returns:
because the spread copy shares its `Placeholder` objects with the caller's
array and preserves length and order, the caller's array is element-wise
the updated list. -/
def callerArrayAfter (env : AIEnv) (userMessage : Str)
    (placeholders : List Placeholder) (history : List Message) : List Placeholder :=
  (processConversation env userMessage placeholders history).updatedPlaceholders

/-! ## Document regenerator (`generateDocx`, `src/lib/docx-generator.ts`) -/

/-- JavaScript property-key coercion: an absent (`undefined`)
`originalText` indexes the data object under the key `"undefined"`. -/
def jsPropKey : Option Str → Str
  | some s => s
  | none => "undefined".data

/-- `data[k] = v` on a plain object: overwrites in place, first-assignment
position is kept, otherwise appends. -/
def objSet (data : List (Str × Str)) (k v : Str) : List (Str × Str) :=
  if data.any (fun kv => decide (kv.1 = k)) then
    data.map (fun kv => if kv.1 = k then (k, v) else kv)
  else data ++ [(k, v)]

/-- Lines 83–94 of `docx-generator.ts`: the substitution data object built
by `generateDocx` (`if (placeholder.value) data[placeholder.originalText] =
placeholder.value`), as an insertion-ordered association list. -/
def buildSubstitutionData (placeholders : List Placeholder) : List (Str × Str) :=
  placeholders.foldl
    (fun data p =>
      if truthy p.value then objSet data (jsPropKey p.originalText) (p.value.getD [])
      else data)
    []

/-- Modelled from the spec: the substitution set as the specification words
it — "the map from each field's literal `originalText` to that field's
value, restricted to fields whose value is non-null" — used as the
comparison point for the claim about `buildSubstitutionData`. -/
def specSubstitutionData (placeholders : List Placeholder) : List (Str × Str) :=
  (placeholders.filter (fun p => p.value.isSome)).map
    (fun p => (jsPropKey p.originalText, p.value.getD []))

/-! ## Helper lemmas -/

/-- The two tiers and validation of a turn that reaches Tier 3: no
confirmation word, a current field, no Tier 1 value, no Tier 2 value. -/
theorem processConversation_tier3 (env : AIEnv) (msg : Str)
    (ps : List Placeholder) (hist : List Message) (current : Placeholder)
    (hconf : isConfirmation msg = false)
    (hfind : ps.find? (fun p => !truthy p.value) = some current)
    (htier1 : extractValueFromMessage msg current = none)
    (hai : extractWithAI env msg current hist = none) :
    processConversation env msg ps hist =
      ⟨tier3Response env msg current, ps, false⟩ := by
  unfold processConversation
  rw [hconf, hfind]
  cases henv : env.enabled <;> simp [htier1, hai, henv]

/-- A turn whose extracted value fails validation: feedback response, no
mutation, not complete. -/
theorem processConversation_invalid (env : AIEnv) (msg : Str)
    (ps : List Placeholder) (hist : List Message) (current : Placeholder)
    (v fb : Str)
    (hconf : isConfirmation msg = false)
    (hfind : ps.find? (fun p => !truthy p.value) = some current)
    (htier1 : extractValueFromMessage msg current = some v)
    (hval : validateValue v current = VResult.invalid fb) :
    processConversation env msg ps hist = ⟨"⚠️ ".data ++ fb, ps, false⟩ := by
  unfold processConversation
  rw [hconf, hfind]
  simp [htier1, hval]

/-! ## Claim theorems -/

/-- C1.  The claim asserts that for a well-formed `[NAME]` marker the
detector output contains a field whose `name` is the normalised form of
`NAME` *and* whose `originalText` equals the literal bracket content.  The
code satisfies the `name` half but violates the `originalText` half: the
object literal of `detectPlaceholders` (part_000 lines 85–90) omits the
`originalText` property that `types.ts` declares required and that
`generateDocx` documents itself as relying on, so the field's
`originalText` is absent (`undefined`), not the literal content.  At the
document text `"[COMPANY_NAME]"` the detector returns exactly one field,
named `COMPANY_NAME`, with no `originalText`. -/
theorem claim1_detector_omits_originalText :
    detectPlaceholders "[COMPANY_NAME]".data =
      [{ name := "COMPANY_NAME".data, originalText := none, value := none,
         type := FieldType.text, description := "Company Name".data }] ∧
    ∀ p ∈ detectPlaceholders "[COMPANY_NAME]".data, p.originalText = none := by
  constructor
  · decide
  · decide

/-- C5.  The text
`"This is between [COMPANY_NAME] and [INVESTOR_NAME] for $[AMOUNT]"`
yields exactly three fields, named `COMPANY_NAME`, `INVESTOR_NAME`,
`AMOUNT` in that order, and the `AMOUNT` field has type `number` and
description `"Amount"`. -/
theorem claim5_three_fields :
    (detectPlaceholders "This is between [COMPANY_NAME] and [INVESTOR_NAME] for $[AMOUNT]".data).map
        (fun p => p.name) =
      ["COMPANY_NAME".data, "INVESTOR_NAME".data, "AMOUNT".data] ∧
    ((detectPlaceholders "This is between [COMPANY_NAME] and [INVESTOR_NAME] for $[AMOUNT]".data)[2]?).map
        (fun p => (p.type, p.description)) =
      some (FieldType.number, "Amount".data) := by
  constructor
  · decide
  · decide

/-- C4.  Against a current `number` field whose name contains `AMOUNT`,
the message `"$2M"` is Tier-1-extracted as the raw value `"2"`, validation
rejects it as implausibly low (below 1000), the field's value stays
`null`, and the turn returns the validation feedback with
`isComplete = false`. -/
theorem claim4_low_amount (p : Placeholder) (env : AIEnv) (hist : List Message)
    (htype : p.type = FieldType.number)
    (hname : containsSub p.name "AMOUNT".data = true)
    (hvalue : p.value = none) :
    extractValueFromMessage "$2M".data p = some "2".data ∧
    validateValue "2".data p =
      VResult.invalid "That seems quite low for an investment amount. Did you mean to enter a larger number? (e.g., 50000)".data ∧
    processConversation env "$2M".data [p] hist =
      ⟨"⚠️ That seems quite low for an investment amount. Did you mean to enter a larger number? (e.g., 50000)".data,
       [p], false⟩ := by
  obtain ⟨nm, ot, vl, ty, ds⟩ := p
  simp only at htype hname hvalue
  subst htype hvalue
  have hex : extractValueFromMessage "$2M".data ⟨nm, ot, none, FieldType.number, ds⟩ =
      some "2".data := rfl
  have hval : validateValue "2".data ⟨nm, ot, none, FieldType.number, ds⟩ =
      VResult.invalid "That seems quite low for an investment amount. Did you mean to enter a larger number? (e.g., 50000)".data := by
    unfold validateValue
    simp only [hname]
    rfl
  refine ⟨hex, hval, ?_⟩
  have := processConversation_invalid env "$2M".data
    [⟨nm, ot, none, FieldType.number, ds⟩] hist
    ⟨nm, ot, none, FieldType.number, ds⟩ "2".data
    "That seems quite low for an investment amount. Did you mean to enter a larger number? (e.g., 50000)".data
    rfl rfl hex hval
  exact this

theorem claim4_low_amount_witness :
    (⟨"PURCHASE_AMOUNT".data, none, none, FieldType.number,
        "Investment amount".data⟩ : Placeholder).type = FieldType.number ∧
    processConversation ⟨false, AICallOutcome.failure, AICallOutcome.failure⟩
        "$2M".data
        [⟨"PURCHASE_AMOUNT".data, none, none, FieldType.number,
          "Investment amount".data⟩] [] =
      ⟨"⚠️ That seems quite low for an investment amount. Did you mean to enter a larger number? (e.g., 50000)".data,
       [⟨"PURCHASE_AMOUNT".data, none, none, FieldType.number,
         "Investment amount".data⟩], false⟩ :=
  ⟨rfl,
   (claim4_low_amount
      ⟨"PURCHASE_AMOUNT".data, none, none, FieldType.number,
        "Investment amount".data⟩
      ⟨false, AICallOutcome.failure, AICallOutcome.failure⟩ []
      (by decide) (by decide) (by decide)).2.2⟩

/-- C10.  Tier 1 has extraction branches only for `number`, `date` and
`text`, so for an `email` field it returns `null` on every message; with
the external capability disabled an email field is never filled: the turn
leaves every placeholder unchanged, reports `isComplete = false`, and any
non-confirmation message is answered with the deterministic
clarification. -/
theorem claim10_email_never_filled :
    (∀ (msg : Str) (p : Placeholder), p.type = FieldType.email →
      extractValueFromMessage msg p = none) ∧
    (∀ (env : AIEnv) (msg : Str) (ps : List Placeholder) (hist : List Message)
        (p : Placeholder),
      env.enabled = false →
      ps.find? (fun q => !truthy q.value) = some p →
      p.type = FieldType.email →
      (processConversation env msg ps hist).updatedPlaceholders = ps ∧
      (processConversation env msg ps hist).isComplete = false ∧
      (isConfirmation msg = false →
        (processConversation env msg ps hist).response = buildDefaultClarification p)) := by
  have hextract : ∀ (msg : Str) (p : Placeholder), p.type = FieldType.email →
      extractValueFromMessage msg p = none := by
    intro msg p htype
    unfold extractValueFromMessage
    rw [htype]
  refine ⟨hextract, ?_⟩
  intro env msg ps hist p henv hfind htype
  by_cases hconf : isConfirmation msg = true
  · unfold processConversation
    rw [hconf, hfind]
    simp
  · rw [Bool.not_eq_true] at hconf
    have hai : extractWithAI env msg p hist = none := by
      unfold extractWithAI
      rw [henv]
      rfl
    have := processConversation_tier3 env msg ps hist p hconf hfind
      (hextract msg p htype) hai
    rw [this]
    refine ⟨rfl, rfl, fun _ => ?_⟩
    unfold tier3Response
    rw [henv]
    rfl

theorem claim10_email_never_filled_witness :
    extractValueFromMessage "alice@example.com".data
        ⟨"CONTACT_EMAIL".data, none, none, FieldType.email,
          "Email address".data⟩ = none ∧
    (processConversation ⟨false, AICallOutcome.failure, AICallOutcome.failure⟩
        "alice@example.com".data
        [⟨"CONTACT_EMAIL".data, none, none, FieldType.email,
          "Email address".data⟩] []).updatedPlaceholders =
      [⟨"CONTACT_EMAIL".data, none, none, FieldType.email,
        "Email address".data⟩] :=
  ⟨claim10_email_never_filled.1 "alice@example.com".data
      ⟨"CONTACT_EMAIL".data, none, none, FieldType.email,
        "Email address".data⟩ (by decide),
   (claim10_email_never_filled.2
      ⟨false, AICallOutcome.failure, AICallOutcome.failure⟩
      "alice@example.com".data
      [⟨"CONTACT_EMAIL".data, none, none, FieldType.email,
        "Email address".data⟩] []
      ⟨"CONTACT_EMAIL".data, none, none, FieldType.email,
        "Email address".data⟩
      (by decide) (by decide) (by decide)).1⟩

/-- C9.  When the Tier 2 call fails in any of the ways the claim lists —
transport error / non-OK response (`AICallOutcome.failure`, absorbed by the
source's `catch { return null }`) or a response body with no `EXTRACTED:`
token — `extractWithAI` returns `null` instead of raising (the model is
total), and a turn whose Tier 1 also produced nothing emits the Tier 3
clarification with the placeholder list untouched. -/
theorem claim9_ai_failure_degrades (env : AIEnv)
    (henabled : env.enabled = true)
    (hfail : env.extractCall = AICallOutcome.failure ∨
      ∃ body, env.extractCall = AICallOutcome.success body ∧
        containsSub body "EXTRACTED:".data = false) :
    (∀ (msg : Str) (p : Placeholder) (hist : List Message),
      extractWithAI env msg p hist = none) ∧
    (∀ (msg : Str) (ps : List Placeholder) (hist : List Message)
        (current : Placeholder),
      isConfirmation msg = false →
      ps.find? (fun p => !truthy p.value) = some current →
      extractValueFromMessage msg current = none →
      processConversation env msg ps hist =
        ⟨tier3Response env msg current, ps, false⟩) := by
  have hai : ∀ (msg : Str) (p : Placeholder) (hist : List Message),
      extractWithAI env msg p hist = none := by
    intro msg p hist
    unfold extractWithAI
    rw [henabled]
    rcases hfail with h | ⟨body, hbody, htoken⟩
    · rw [h]
      rfl
    · rw [hbody]
      simp only [Bool.not_true, if_neg (by decide : ¬((false : Bool) = true))]
      unfold parseExtractedToken
      rw [htoken]
      rfl
  exact ⟨hai, fun msg ps hist current hconf hfind htier1 =>
    processConversation_tier3 env msg ps hist current hconf hfind htier1
      (hai msg current hist)⟩

theorem claim9_ai_failure_degrades_witness :
    extractWithAI
        ⟨true, AICallOutcome.success "I could not find a value there.".data,
          AICallOutcome.failure⟩ "no idea".data
        ⟨"CONTACT_EMAIL".data, none, none, FieldType.email,
          "Email address".data⟩ [] = none ∧
    processConversation
        ⟨true, AICallOutcome.success "I could not find a value there.".data,
          AICallOutcome.failure⟩ "no idea".data
        [⟨"CONTACT_EMAIL".data, none, none, FieldType.email,
          "Email address".data⟩] [] =
      ⟨tier3Response
          ⟨true, AICallOutcome.success "I could not find a value there.".data,
            AICallOutcome.failure⟩ "no idea".data
          ⟨"CONTACT_EMAIL".data, none, none, FieldType.email,
            "Email address".data⟩,
        [⟨"CONTACT_EMAIL".data, none, none, FieldType.email,
          "Email address".data⟩], false⟩ :=
  ⟨(claim9_ai_failure_degrades
      ⟨true, AICallOutcome.success "I could not find a value there.".data,
        AICallOutcome.failure⟩ (by decide)
      (Or.inr ⟨"I could not find a value there.".data, rfl, by decide⟩)).1
      "no idea".data
      ⟨"CONTACT_EMAIL".data, none, none, FieldType.email,
        "Email address".data⟩ [],
   (claim9_ai_failure_degrades
      ⟨true, AICallOutcome.success "I could not find a value there.".data,
        AICallOutcome.failure⟩ (by decide)
      (Or.inr ⟨"I could not find a value there.".data, rfl, by decide⟩)).2
      "no idea".data
      [⟨"CONTACT_EMAIL".data, none, none, FieldType.email,
        "Email address".data⟩] []
      ⟨"CONTACT_EMAIL".data, none, none, FieldType.email,
        "Email address".data⟩
      (by decide) (by decide) (by decide)⟩

/-! Digit-string arithmetic for the date-extraction claim. -/

theorem charVal_digitChar (d : Nat) (h : d < 10) : charVal (digitChar d) = d := by
  interval_cases d <;> rfl

theorem digitChar_isDigit (d : Nat) (h : d < 10) : (digitChar d).isDigit = true := by
  interval_cases d <;> rfl

theorem digitChar_not_slash_dash (d : Nat) (h : d < 10) :
    digitChar d ≠ '/' ∧ digitChar d ≠ '-' := by
  interval_cases d <;> exact ⟨by decide, by decide⟩

/-- `natCharsAux` ignores its fuel above the argument. -/
theorem natCharsAux_irrel (n : Nat) :
    ∀ fuel₁ fuel₂ : Nat, n ≤ fuel₁ → n ≤ fuel₂ →
    natCharsAux fuel₁ n = natCharsAux fuel₂ n := by
  induction n using Nat.strong_induction_on with
  | _ n ih =>
    intro fuel₁ fuel₂ h₁ h₂
    match fuel₁, fuel₂ with
    | 0, 0 => rfl
    | 0, f₂ + 1 =>
      have : n = 0 := Nat.le_zero.1 h₁
      subst this
      rfl
    | f₁ + 1, 0 =>
      have : n = 0 := Nat.le_zero.1 h₂
      subst this
      rfl
    | f₁ + 1, f₂ + 1 =>
      show (if n < 10 then _ else _) = (if n < 10 then _ else _)
      by_cases h10 : n < 10
      · rw [if_pos h10, if_pos h10]
      · rw [if_neg h10, if_neg h10]
        have hdiv : n / 10 < n := Nat.div_lt_self (by omega) (by norm_num)
        rw [ih (n / 10) hdiv f₁ (n / 10) (by omega) (Nat.le_refl _),
          ih (n / 10) hdiv f₂ (n / 10) (by omega) (Nat.le_refl _)]

/-- The natural recursion equation of `String(n)`. -/
theorem natChars_eq (n : Nat) :
    natChars n =
      if n < 10 then [digitChar n]
      else natChars (n / 10) ++ [digitChar (n % 10)] := by
  show natCharsAux n n = _
  match hn : n with
  | 0 => rfl
  | k + 1 =>
    show (if k + 1 < 10 then _ else _) = _
    by_cases h10 : k + 1 < 10
    · rw [if_pos h10, if_pos h10]
    · rw [if_neg h10, if_neg h10]
      have hdiv : (k + 1) / 10 < k + 1 := Nat.div_lt_self (by omega) (by norm_num)
      rw [natCharsAux_irrel ((k + 1) / 10) k ((k + 1) / 10) (by omega) (Nat.le_refl _)]
      rfl

theorem natChars_ne_nil (n : Nat) : natChars n ≠ [] := by
  rw [natChars_eq]
  by_cases h10 : n < 10
  · rw [if_pos h10]
    exact List.cons_ne_nil _ _
  · rw [if_neg h10]
    exact List.append_ne_nil_of_right_ne_nil _ (List.cons_ne_nil _ _)

theorem natChars_all_digit (n : Nat) : ∀ c ∈ natChars n, c.isDigit = true := by
  induction n using Nat.strong_induction_on with
  | _ n ih =>
    intro c hc
    rw [natChars_eq] at hc
    by_cases h10 : n < 10
    · rw [if_pos h10, List.mem_singleton] at hc
      exact hc ▸ digitChar_isDigit n h10
    · rw [if_neg h10, List.mem_append] at hc
      rcases hc with hc | hc
      · exact ih (n / 10) (Nat.div_lt_self (by omega) (by norm_num)) c hc
      · rw [List.mem_singleton] at hc
        exact hc ▸ digitChar_isDigit (n % 10) (Nat.mod_lt n (by norm_num))

theorem digitsToNat_append_singleton (l : Str) (c : Char) :
    digitsToNat (l ++ [c]) = 10 * digitsToNat l + charVal c := by
  unfold digitsToNat
  rw [List.foldl_append]
  rfl

theorem digitsToNat_natChars (n : Nat) : digitsToNat (natChars n) = n := by
  induction n using Nat.strong_induction_on with
  | _ n ih =>
    rw [natChars_eq]
    by_cases h10 : n < 10
    · rw [if_pos h10]
      show 10 * 0 + charVal (digitChar n) = n
      rw [charVal_digitChar n h10]
      omega
    · rw [if_neg h10, digitsToNat_append_singleton,
        ih (n / 10) (Nat.div_lt_self (by omega) (by norm_num)),
        charVal_digitChar (n % 10) (Nat.mod_lt n (by norm_num))]
      omega

theorem natChars_length_one (n : Nat) (h : n < 10) : (natChars n).length = 1 := by
  rw [natChars_eq, if_pos h]
  rfl

theorem natChars_length_two (n : Nat) (h1 : 10 ≤ n) (h2 : n ≤ 99) :
    (natChars n).length = 2 := by
  rw [natChars_eq, if_neg (by omega), List.length_append,
    natChars_length_one (n / 10) (by omega)]
  rfl

theorem natChars_length_three (n : Nat) (h1 : 100 ≤ n) (h2 : n ≤ 999) :
    (natChars n).length = 3 := by
  rw [natChars_eq, if_neg (by omega), List.length_append,
    natChars_length_two (n / 10) (by omega) (by omega)]
  rfl

theorem natChars_length_four (n : Nat) (h1 : 1000 ≤ n) (h2 : n ≤ 9999) :
    (natChars n).length = 4 := by
  rw [natChars_eq, if_neg (by omega), List.length_append,
    natChars_length_three (n / 10) (by omega) (by omega)]
  rfl

theorem pad2_shape (n : Nat) (h : n ≤ 99) : ∃ a b, pad2 n = [a, b] := by
  refine List.length_eq_two.1 ?_
  unfold pad2
  by_cases h10 : n < 10
  · rw [if_pos (by rw [natChars_length_one n h10]; omega)]
    rw [List.length_cons, natChars_length_one n h10]
  · rw [if_neg (by rw [natChars_length_two n (by omega) h]; omega)]
    exact natChars_length_two n (by omega) h

theorem pad2_all_digit (n : Nat) : ∀ c ∈ pad2 n, c.isDigit = true := by
  intro c hc
  unfold pad2 at hc
  by_cases hl : (natChars n).length < 2
  · rw [if_pos hl, List.mem_cons] at hc
    rcases hc with hc | hc
    · subst hc
      rfl
    · exact natChars_all_digit n c hc
  · rw [if_neg hl] at hc
    exact natChars_all_digit n c hc

theorem digitsToNat_cons_zero (l : Str) : digitsToNat ('0' :: l) = digitsToNat l := by
  unfold digitsToNat
  rfl

theorem digitsToNat_pad2 (n : Nat) : digitsToNat (pad2 n) = n := by
  unfold pad2
  by_cases hl : (natChars n).length < 2
  · rw [if_pos hl, digitsToNat_cons_zero, digitsToNat_natChars]
  · rw [if_neg hl, digitsToNat_natChars]

/-! `splitOnChar`, `jsTrim` and scanner lemmas for the date claim. -/

theorem splitOnChar_ne_nil (sep : Char) (l : Str) : splitOnChar sep l ≠ [] := by
  cases l with
  | nil => exact List.cons_ne_nil _ _
  | cons c rest =>
    show (match splitOnChar sep rest with
      | [] => if c = sep then [[], []] else [[c]]
      | h :: t => if c = sep then [] :: h :: t else (c :: h) :: t) ≠ []
    cases splitOnChar sep rest with
    | nil => by_cases hcs : c = sep <;> simp [hcs]
    | cons h t => by_cases hcs : c = sep <;> simp [hcs]

theorem splitOnChar_not_mem (sep : Char) (l : Str) (h : sep ∉ l) :
    splitOnChar sep l = [l] := by
  induction l with
  | nil => rfl
  | cons c rest ih =>
    have hc : c ≠ sep := fun hz => h (hz ▸ List.mem_cons_self c rest)
    have hrest := ih (fun hz => h (List.mem_cons_of_mem c hz))
    show (match splitOnChar sep rest with
      | [] => if c = sep then [[], []] else [[c]]
      | h :: t => if c = sep then [] :: h :: t else (c :: h) :: t) = [c :: rest]
    rw [hrest]
    dsimp only
    rw [if_neg hc]

theorem splitOnChar_append (sep : Char) (l rest : Str) (h : sep ∉ l) :
    splitOnChar sep (l ++ sep :: rest) = l :: splitOnChar sep rest := by
  induction l with
  | nil =>
    show (match splitOnChar sep rest with
      | [] => if sep = sep then [[], []] else [[sep]]
      | h :: t => if sep = sep then [] :: h :: t else (sep :: h) :: t) = [] :: splitOnChar sep rest
    cases hs : splitOnChar sep rest with
    | nil => exact absurd hs (splitOnChar_ne_nil sep rest)
    | cons h t =>
      dsimp only
      rw [if_pos rfl]
  | cons c l ih =>
    have hc : c ≠ sep := fun hz => h (hz ▸ List.mem_cons_self c l)
    have hl := ih (fun hz => h (List.mem_cons_of_mem c hz))
    show (match splitOnChar sep (l ++ sep :: rest) with
      | [] => if c = sep then [[], []] else [[c]]
      | h :: t => if c = sep then [] :: h :: t else (c :: h) :: t) =
      (c :: l) :: splitOnChar sep rest
    rw [hl]
    dsimp only
    rw [if_neg hc]

theorem jsTrimLeft_eq_self (s : Str)
    (h : ∀ c, s.head? = some c → isJsWs c = false) : jsTrimLeft s = s := by
  cases s with
  | nil => rfl
  | cons c t =>
    unfold jsTrimLeft
    rw [List.dropWhile_cons, if_neg (by simp [h c rfl])]

theorem jsTrimRight_eq_self (s : Str)
    (h : ∀ c, s.getLast? = some c → isJsWs c = false) : jsTrimRight s = s := by
  unfold jsTrimRight
  cases hs : s.reverse with
  | nil =>
    rw [List.dropWhile_nil, ← hs, List.reverse_reverse]
  | cons c t =>
    have hlast : s.getLast? = some c := by
      rw [← List.head?_reverse, hs]
      rfl
    rw [List.dropWhile_cons, if_neg (by simp [h c hlast]), ← hs,
      List.reverse_reverse]

theorem jsTrim_eq_self (s : Str)
    (hh : ∀ c, s.head? = some c → isJsWs c = false)
    (hl : ∀ c, s.getLast? = some c → isJsWs c = false) : jsTrim s = s := by
  unfold jsTrim
  rw [jsTrimLeft_eq_self s hh, jsTrimRight_eq_self s hl]

theorem scanBW_cons (f : Str → Option Str) (prev : Option Char) (c : Char)
    (rest : Str) :
    scanBW f prev (c :: rest) =
      match (if wordness prev = false then f (c :: rest) else none) with
      | some m => some m
      | none => scanBW f (some c) rest := rfl

/-- `dmyAt` fails wherever the first character is not a digit. -/
theorem dmyAt_nondigit (sep c : Char) (rest : Str) (h : c.isDigit = false) :
    dmyAt sep (c :: rest) = none := by
  cases rest <;> simp [dmyAt, comp12, h]

/-- A scan skips over a block of non-digit characters whenever the
per-position matcher requires a leading digit; the carried previous
character ends up being the block's last one. -/
theorem scanBW_skip (f : Str → Option Str)
    (hf : ∀ c rest, c.isDigit = false → f (c :: rest) = none) :
    ∀ (pre : Str) (prev : Option Char) (rest : Str),
    (∀ c ∈ pre, c.isDigit = false) →
    scanBW f prev (pre ++ rest) =
      scanBW f (pre.foldl (fun _ c => some c) prev) rest := by
  intro pre
  induction pre with
  | nil => intro prev rest _; rfl
  | cons c pre ih =>
    intro prev rest hnd
    rw [List.cons_append, scanBW_cons,
      hf c _ (hnd c (List.mem_cons_self c pre))]
    have heq : (if wordness prev = false then (none : Option Str) else none) = none := by
      cases wordness prev <;> rfl
    rw [heq, List.foldl_cons]
    exact ih (some c) rest (fun d hd => hnd d (List.mem_cons_of_mem c hd))

/-- The numeric date pattern matches exactly at a
two-digit / two-digit / four-digit group ending at a non-word position. -/
theorem dmyAt_exact (sep a b c e y1 y2 y3 y4 : Char)
    (ha : a.isDigit = true) (hb : b.isDigit = true) (hc : c.isDigit = true)
    (he : e.isDigit = true) (h1 : y1.isDigit = true) (h2 : y2.isDigit = true)
    (h3 : y3.isDigit = true) (h4 : y4.isDigit = true) :
    dmyAt sep (a :: b :: sep :: c :: e :: sep :: [y1, y2, y3, y4]) =
      some (a :: b :: sep :: c :: e :: sep :: [y1, y2, y3, y4]) := by
  simp [dmyAt, dmyTailAt, comp12, take4digits, ha, hb, hc, he, h1, h2, h3, h4,
    wordness]

theorem daysInMonth_le (m y : Nat) : daysInMonth m y ≤ 31 := by
  unfold daysInMonth
  split
  · split <;> omega
  · split <;> omega

theorem exists_len_four (l : Str) (h : l.length = 4) :
    ∃ a b c d, l = [a, b, c, d] := by
  match l with
  | [a, b, c, d] => exact ⟨a, b, c, d, rfl⟩
  | [] => simp at h
  | [_] => simp at h
  | [_, _] => simp at h
  | [_, _, _] => simp at h
  | _ :: _ :: _ :: _ :: _ :: _ =>
    simp only [List.length_cons] at h
    omega

theorem digitChar_props (d : Nat) (h : d < 10) :
    (digitChar d).isDigit = true ∧ isJsWs (digitChar d) = false ∧
    digitChar d ≠ '/' ∧ digitChar d ≠ '-' := by
  interval_cases d <;> exact ⟨rfl, rfl, by decide, by decide⟩

theorem natChars_mem_digitChar (n : Nat) :
    ∀ c ∈ natChars n, ∃ d, d < 10 ∧ c = digitChar d := by
  induction n using Nat.strong_induction_on with
  | _ n ih =>
    intro c hc
    rw [natChars_eq] at hc
    by_cases h10 : n < 10
    · rw [if_pos h10, List.mem_singleton] at hc
      exact ⟨n, h10, hc⟩
    · rw [if_neg h10, List.mem_append] at hc
      rcases hc with hc | hc
      · exact ih (n / 10) (Nat.div_lt_self (by omega) (by norm_num)) c hc
      · rw [List.mem_singleton] at hc
        exact ⟨n % 10, Nat.mod_lt n (by norm_num), hc⟩

theorem natChars_char_facts (n : Nat) :
    ∀ c ∈ natChars n, c.isDigit = true ∧ isJsWs c = false ∧
      c ≠ '/' ∧ c ≠ '-' := by
  intro c hc
  obtain ⟨d, hd, rfl⟩ := natChars_mem_digitChar n c hc
  exact digitChar_props d hd

theorem pad2_char_facts (n : Nat) :
    ∀ c ∈ pad2 n, c.isDigit = true ∧ isJsWs c = false ∧
      c ≠ '/' ∧ c ≠ '-' := by
  intro c hc
  unfold pad2 at hc
  by_cases hl : (natChars n).length < 2
  · rw [if_pos hl, List.mem_cons] at hc
    rcases hc with hc | hc
    · subst hc
      exact digitChar_props 0 (by omega)
    · exact natChars_char_facts n c hc
  · rw [if_neg hl] at hc
    exact natChars_char_facts n c hc

/-- The `currentCount` argument of `candidateOf` (the map size the source
passes to `inferFromContext`) is never read. -/
theorem candidateOf_count (t : Str) (n : Nat) (m : BracketMatch) :
    candidateOf t n m = candidateOf t 0 m := rfl

/-- The detector's fold over matches equals the de-duplicating fold over
the per-match candidates. -/
theorem detect_foldCandidates (t : Str) (L : List BracketMatch) :
    ∀ acc : List Placeholder,
    L.foldl (fun acc m =>
        match candidateOf t acc.length m with
        | none => acc
        | some p =>
          if acc.any (fun q => decide (q.name = p.name)) then acc
          else acc ++ [p]) acc =
      (L.filterMap (candidateOf t 0)).foldl (fun acc p =>
        if acc.any (fun q => decide (q.name = p.name)) then acc
        else acc ++ [p]) acc := by
  induction L with
  | nil => intro acc; rfl
  | cons m L ih =>
    intro acc
    rw [List.foldl_cons, List.filterMap_cons]
    have hc : candidateOf t acc.length m = candidateOf t 0 m :=
      candidateOf_count t acc.length m
    cases h : candidateOf t 0 m with
    | none =>
      simp only [hc, h]
      exact ih acc
    | some p =>
      simp only [hc, h, List.foldl_cons]
      exact ih _

theorem detectPlaceholders_eq_dedup (t : Str) :
    detectPlaceholders t =
      (detectionCandidates t).foldl (fun acc p =>
        if acc.any (fun q => decide (q.name = p.name)) then acc
        else acc ++ [p]) [] :=
  detect_foldCandidates t (bracketMatches 0 t) []

/-- Every element of the de-duplicating fold's output is drawn from the
accumulator or from the input list. -/
theorem foldIns_mem (L : List Placeholder) :
    ∀ (acc : List Placeholder) (p : Placeholder),
    p ∈ L.foldl (fun acc p =>
        if acc.any (fun q => decide (q.name = p.name)) then acc
        else acc ++ [p]) acc →
    p ∈ acc ∨ p ∈ L := by
  induction L with
  | nil => intro acc p h; exact Or.inl h
  | cons q L ih =>
    intro acc p h
    rw [List.foldl_cons] at h
    rcases ih _ p h with h' | h'
    · by_cases hg : acc.any (fun r => decide (r.name = q.name)) = true
      · rw [if_pos hg] at h'
        exact Or.inl h'
      · rw [if_neg hg] at h'
        rcases List.mem_append.1 h' with h'' | h''
        · exact Or.inl h''
        · rw [List.mem_singleton] at h''
          subst h''
          exact Or.inr (List.mem_cons_self p L)
    · exact Or.inr (List.mem_cons_of_mem q h')

/-- The de-duplicating fold commutes with the name projection. -/
theorem foldIns_map_name (L : List Placeholder) :
    ∀ acc : List Placeholder,
    (L.foldl (fun acc p =>
        if acc.any (fun q => decide (q.name = p.name)) then acc
        else acc ++ [p]) acc).map (fun p => p.name) =
      (L.map (fun p => p.name)).foldl
        (fun accN n => if n ∈ accN then accN else accN ++ [n])
        (acc.map (fun p => p.name)) := by
  induction L with
  | nil => intro acc; rfl
  | cons p L ih =>
    intro acc
    rw [List.foldl_cons, List.map_cons, List.foldl_cons, ih]
    congr 1
    by_cases hg : acc.any (fun q => decide (q.name = p.name)) = true
    · rw [if_pos hg, if_pos]
      simp only [List.any_eq_true, decide_eq_true_eq] at hg
      obtain ⟨q, hq, hqn⟩ := hg
      exact hqn ▸ List.mem_map_of_mem (fun r => r.name) hq
    · have hnm : p.name ∉ acc.map (fun p => p.name) := by
        intro hmem
        apply hg
        rw [List.mem_map] at hmem
        obtain ⟨q, hq, hqn⟩ := hmem
        exact List.any_eq_true.2 ⟨q, hq, decide_eq_true hqn⟩
      rw [if_neg hg, if_neg hnm, List.map_append]
      rfl

/-- The name-level insertion fold preserves `Nodup`. -/
theorem foldInsName_nodup (ns : List Str) :
    ∀ acc : List Str, acc.Nodup →
    (ns.foldl (fun acc n => if n ∈ acc then acc else acc ++ [n]) acc).Nodup := by
  induction ns with
  | nil => intro acc h; exact h
  | cons n ns ih =>
    intro acc h
    rw [List.foldl_cons]
    by_cases hm : n ∈ acc
    · rw [if_pos hm]
      exact ih acc h
    · rw [if_neg hm]
      refine ih _ ?_
      simp [List.nodup_append, h, hm]

/-- First-writer-wins: looking a name up in the fold's output is the same
as looking it up in the accumulator and then in the input list. -/
theorem foldIns_find (L : List Placeholder) (nm : Str) :
    ∀ acc : List Placeholder,
    (L.foldl (fun acc p =>
        if acc.any (fun q => decide (q.name = p.name)) then acc
        else acc ++ [p]) acc).find? (fun p => decide (p.name = nm)) =
      (acc.find? (fun p => decide (p.name = nm))).or
        (L.find? (fun p => decide (p.name = nm))) := by
  induction L with
  | nil => intro acc; simp
  | cons p L ih =>
    intro acc
    rw [List.foldl_cons, ih]
    by_cases hg : acc.any (fun q => decide (q.name = p.name)) = true
    · rw [if_pos hg]
      by_cases hnm : p.name = nm
      · subst hnm
        have hs : (acc.find? (fun q => decide (q.name = p.name))).isSome :=
          List.find?_isSome.2 (by simpa using List.any_eq_true.1 hg)
        obtain ⟨q, hq⟩ := Option.isSome_iff_exists.1 hs
        rw [hq]
        rfl
      · rw [List.find?_cons_of_neg _ (by simp [hnm])]
    · rw [if_neg hg, List.find?_append, Option.or_assoc]
      congr 1
      by_cases hnm : p.name = nm
      · subst hnm
        rw [List.find?_cons_of_pos _ (by simp), List.find?_cons_of_pos _ (by simp)]
        rfl
      · rw [List.find?_cons_of_neg _ (by simp [hnm]),
          List.find?_cons_of_neg _ (by simp [hnm])]
        rfl

/-- `data[k] = v` appends when `k` is not yet a key. -/
theorem objSet_append (data : List (Str × Str)) (k v : Str)
    (h : data.any (fun kv => decide (kv.1 = k)) = false) :
    objSet data k v = data ++ [(k, v)] := by
  unfold objSet
  rw [h]
  rfl

/-- The `generateDocx` loop with an accumulated data object: when every
remaining truthy key is fresh relative to the accumulator and the truthy
keys are pairwise distinct, the loop appends exactly the truthy
`(originalText, value)` pairs in order. -/
theorem buildSubstitutionData_go (ps : List Placeholder) :
    ∀ acc : List (Str × Str),
    (∀ p ∈ ps, truthy p.value = true →
      acc.any (fun kv => decide (kv.1 = jsPropKey p.originalText)) = false) →
    ((ps.filter (fun p => truthy p.value)).map
      (fun p => jsPropKey p.originalText)).Nodup →
    ps.foldl
        (fun data p =>
          if truthy p.value then
            objSet data (jsPropKey p.originalText) (p.value.getD [])
          else data) acc =
      acc ++ (ps.filter (fun p => truthy p.value)).map
        (fun p => (jsPropKey p.originalText, p.value.getD [])) := by
  induction ps with
  | nil => intro acc _ _; simp
  | cons p ps ih =>
    intro acc hdisj hnodup
    rw [List.foldl_cons]
    by_cases hp : truthy p.value = true
    · rw [if_pos hp,
        objSet_append acc _ _ (hdisj p (List.mem_cons_self p ps) hp)]
      rw [List.filter_cons_of_pos (by exact hp)] at hnodup ⊢
      rw [List.map_cons, List.nodup_cons] at hnodup
      rw [ih (acc ++ [(jsPropKey p.originalText, p.value.getD [])]) ?_ hnodup.2]
      · simp
      · intro q hq hqv
        rw [List.any_append]
        have h1 := hdisj q (List.mem_cons_of_mem p hq) hqv
        rw [h1]
        simp only [Bool.false_or, List.any_cons, List.any_nil, Bool.or_false]
        rw [decide_eq_false_iff_not]
        intro hk
        exact hnodup.1 (hk ▸ List.mem_map_of_mem (fun r => jsPropKey r.originalText)
          (List.mem_filter.2 ⟨hq, hqv⟩))
    · rw [if_neg hp]
      rw [List.filter_cons_of_neg (by simpa using hp)] at hnodup ⊢
      exact ih acc (fun q hq hqv => hdisj q (List.mem_cons_of_mem p hq) hqv) hnodup

/-- C2 counterexample.  A field whose `value` is the empty string is
non-null, so the claim's substitution set contains an entry for it, but
the code's `if (placeholder.value)` truthiness test drops it: at a
single-field list with `value = ""` the built data object is empty while
the claimed map is not. -/
theorem claim2_substitution_counterexample :
    buildSubstitutionData
        [⟨"NOTE".data, some "Note".data, some [], FieldType.text, "Note".data⟩] ≠
      specSubstitutionData
        [⟨"NOTE".data, some "Note".data, some [], FieldType.text, "Note".data⟩] := by
  decide

/-- C2 amended.  The substitution data object built by `generateDocx` is
the map from each field's literal `originalText` to its value restricted
to fields whose value is *truthy* (non-null and non-empty) — not merely
non-null — with entries in field order; stated under the side condition
that the truthy fields' keys are pairwise distinct (with duplicate keys
the object assignment makes the last write win instead). -/
theorem claim2_substitution_amended (ps : List Placeholder)
    (hkeys : ((ps.filter (fun p => truthy p.value)).map
      (fun p => jsPropKey p.originalText)).Nodup) :
    buildSubstitutionData ps =
      (ps.filter (fun p => truthy p.value)).map
        (fun p => (jsPropKey p.originalText, p.value.getD [])) := by
  unfold buildSubstitutionData
  rw [buildSubstitutionData_go ps [] (fun _ _ _ => rfl) hkeys]
  rfl

theorem claim2_substitution_amended_witness :
    (((([⟨"COMPANY_NAME".data, some "Company Name".data, some "Acme, Inc.".data,
           FieldType.text, "Company Name".data⟩,
         ⟨"PURCHASE_AMOUNT".data, some "Purchase Amount".data, none,
           FieldType.number, "Purchase Amount".data⟩] :
        List Placeholder).filter (fun p => truthy p.value)).map
      (fun p => jsPropKey p.originalText)).Nodup) ∧
    buildSubstitutionData
        [⟨"COMPANY_NAME".data, some "Company Name".data, some "Acme, Inc.".data,
           FieldType.text, "Company Name".data⟩,
         ⟨"PURCHASE_AMOUNT".data, some "Purchase Amount".data, none,
           FieldType.number, "Purchase Amount".data⟩] =
      [("Company Name".data, "Acme, Inc.".data)] :=
  ⟨by decide,
   by
    rw [claim2_substitution_amended _ (by decide)]
    decide⟩

/-- C3 counterexample.  `processConversation` is not pure in the claimed
sense: `[...placeholders]` copies the array but shares its `Placeholder`
objects, and a successful turn assigns through the shared object, so the
caller's array no longer reads equal to its pre-call contents.  Concretely,
one unfilled text field plus the message `"Acme"` leaves the caller's
array holding `value = "Acme"` instead of `null`. -/
theorem claim3_frame_counterexample :
    callerArrayAfter ⟨false, AICallOutcome.failure, AICallOutcome.failure⟩
        "Acme".data
        [⟨"COMPANY_NAME".data, none, none, FieldType.text, "Company name".data⟩]
        [] ≠
      [⟨"COMPANY_NAME".data, none, none, FieldType.text, "Company name".data⟩] := by
  decide

/-- C3 amended.  The caller's placeholder array after a turn is either
exactly its pre-call contents, or its pre-call contents with the first
unfilled placeholder's `value` replaced by some extracted-and-formatted
string — every other placeholder, and every other field of the mutated
placeholder, is unchanged, and all effects beyond that single in-place
`value` assignment are confined to the returned triple. -/
theorem claim3_frame_amended (env : AIEnv) (msg : Str) (ps : List Placeholder)
    (hist : List Message) :
    callerArrayAfter env msg ps hist = ps ∨
    ∃ v, callerArrayAfter env msg ps hist = setFirstUnfilled ps v := by
  unfold callerArrayAfter processConversation
  by_cases hconf : isConfirmation msg = true
  · rw [if_pos hconf]
    cases ps.find? (fun p => !truthy p.value) <;> exact Or.inl rfl
  · rw [if_neg hconf]
    cases hfind : ps.find? (fun p => !truthy p.value) with
    | none => exact Or.inl rfl
    | some current =>
      dsimp only
      cases hex : (if (extractValueFromMessage msg current).isNone && env.enabled then
          extractWithAI env msg current hist
        else extractValueFromMessage msg current) with
      | none => exact Or.inl rfl
      | some v =>
        dsimp only
        cases hval : validateValue v current with
        | invalid fb => exact Or.inl rfl
        | valid => exact Or.inr ⟨formatValue v current, rfl⟩

/-- C7.  A blank (underscore-only) marker whose 80-before/20-after
case-folded context window matches none of the ordered inference rules is
skipped: its loop iteration contributes no candidate, every detected field
originates from some non-skipped match, and on the concrete no-keyword
text of the spec's scenario the detector returns no field at all. -/
theorem claim7_unmatched_blank_skipped :
    (∀ (t : Str) (m : BracketMatch) (n : Nat), m ∈ bracketMatches 0 t →
      isBlankContent (jsTrim m.inner) = true →
      inferFromContext (contextOf t m) n = none →
      candidateOf t n m = none) ∧
    (∀ (t : Str) (p : Placeholder), p ∈ detectPlaceholders t →
      ∃ m ∈ bracketMatches 0 t, candidateOf t 0 m = some p) ∧
    detectPlaceholders "This document [____] something plain".data = [] := by
  refine ⟨?_, ?_, by decide⟩
  · intro t m n _hm hblank hinf
    have hne : ¬((jsTrim m.inner).isEmpty = true) := by
      intro h
      unfold isBlankContent at hblank
      rw [h] at hblank
      simp at hblank
    simp only [candidateOf]
    rw [if_neg hne, if_pos hblank, hinf]
  · intro t p hp
    rw [detectPlaceholders_eq_dedup] at hp
    rcases foldIns_mem _ _ p hp with h | h
    · simp at h
    · exact List.mem_filterMap.1 h

theorem claim7_unmatched_blank_skipped_witness :
    candidateOf "This document [____] something plain".data 0
        ⟨14, "[____]".data, "____".data⟩ = none ∧
    ∃ m ∈ bracketMatches 0 "[COMPANY_NAME]".data,
      candidateOf "[COMPANY_NAME]".data 0 m =
        some { name := "COMPANY_NAME".data, originalText := none, value := none,
               type := FieldType.text, description := "Company Name".data } :=
  ⟨claim7_unmatched_blank_skipped.1 "This document [____] something plain".data
      ⟨14, "[____]".data, "____".data⟩ 0 (by decide) (by decide) (by decide),
   claim7_unmatched_blank_skipped.2.1 "[COMPANY_NAME]".data
      { name := "COMPANY_NAME".data, originalText := none, value := none,
        type := FieldType.text, description := "Company Name".data }
      (by decide)⟩

/-- C8.  For every input text the detector's field list has pairwise
distinct names; looking a name up in it finds exactly the first candidate
of that name the match loop produced (first writer wins, so the kept
field — its description and type — is the first occurrence's); and the
output's name order is the first-seen order of the candidate names. -/
theorem claim8_unique_names (t : Str) :
    ((detectPlaceholders t).map (fun p => p.name)).Nodup ∧
    (∀ nm : Str, (detectPlaceholders t).find? (fun p => decide (p.name = nm)) =
      (detectionCandidates t).find? (fun p => decide (p.name = nm))) ∧
    (detectPlaceholders t).map (fun p => p.name) =
      dedupFirstSeen ((detectionCandidates t).map (fun p => p.name)) := by
  refine ⟨?_, ?_, ?_⟩
  · rw [detectPlaceholders_eq_dedup, foldIns_map_name]
    exact foldInsName_nodup _ [] List.nodup_nil
  · intro nm
    rw [detectPlaceholders_eq_dedup, foldIns_find]
    rfl
  · rw [detectPlaceholders_eq_dedup, foldIns_map_name]
    rfl

/-- C6.  Tier 1 date extraction: for every valid calendar date with
components `M/d/Y` (four-digit year), the message `"the date is D"` with
`D` the canonical zero-padded `MM/DD/YYYY` string yields exactly `D`; and
on the textual message `"December 15, 2024"` it yields `"12/15/2024"`. -/
theorem claim6_date_extraction :
    (∀ (M d Y : Nat) (p : Placeholder), p.type = FieldType.date →
      1 ≤ M → M ≤ 12 → 1 ≤ d → d ≤ daysInMonth M Y → 1000 ≤ Y → Y ≤ 9999 →
      extractValueFromMessage ("the date is ".data ++ fmtMDY M d Y) p =
        some (fmtMDY M d Y)) ∧
    (∀ p : Placeholder, p.type = FieldType.date →
      extractValueFromMessage "December 15, 2024".data p =
        some "12/15/2024".data) := by
  constructor
  · intro M d Y p htype hM1 hM2 hd1 hd2 hY1 hY2
    have hd99 : d ≤ 99 := le_trans hd2 (le_trans (daysInMonth_le M Y) (by norm_num))
    obtain ⟨a, b, hab⟩ := pad2_shape M (by omega)
    obtain ⟨c, e, hce⟩ := pad2_shape d hd99
    obtain ⟨y1, y2, y3, y4, hY⟩ :=
      exists_len_four (natChars Y) (natChars_length_four Y hY1 hY2)
    have hfa := pad2_char_facts M a (by rw [hab]; simp)
    have hfb := pad2_char_facts M b (by rw [hab]; simp)
    have hfc := pad2_char_facts d c (by rw [hce]; simp)
    have hfe := pad2_char_facts d e (by rw [hce]; simp)
    have hfy1 := natChars_char_facts Y y1 (by rw [hY]; simp)
    have hfy2 := natChars_char_facts Y y2 (by rw [hY]; simp)
    have hfy3 := natChars_char_facts Y y3 (by rw [hY]; simp)
    have hfy4 := natChars_char_facts Y y4 (by rw [hY]; simp)
    have hD : fmtMDY M d Y = a :: b :: '/' :: c :: e :: '/' :: [y1, y2, y3, y4] := by
      rw [fmtMDY, hab, hce, hY]
      rfl
    -- the message trims to itself
    have htrim : jsTrim ("the date is ".data ++ fmtMDY M d Y) =
        "the date is ".data ++ fmtMDY M d Y := by
      refine jsTrim_eq_self _ (fun c0 hc0 => ?_) (fun c0 hc0 => ?_)
      · rw [show ("the date is ".data ++ fmtMDY M d Y).head? = some 't' from rfl] at hc0
        cases hc0
        rfl
      · rw [hD] at hc0
        rw [show ("the date is ".data ++
            (a :: b :: '/' :: c :: e :: '/' :: [y1, y2, y3, y4])).getLast? =
            some y4 by rw [List.getLast?_append]; rfl] at hc0
        cases hc0
        exact hfy4.2.1
    -- the slash pattern finds exactly D
    have hscan : scanBW (dmyAt '/') none
        ("the date is ".data ++ fmtMDY M d Y) = some (fmtMDY M d Y) := by
      rw [scanBW_skip (dmyAt '/') (fun c0 r h0 => dmyAt_nondigit '/' c0 r h0)
        "the date is ".data none (fmtMDY M d Y) (by decide)]
      rw [show ("the date is ".data.foldl (fun _ c0 => some c0) none) =
        some ' ' from rfl]
      rw [hD, scanBW_cons, if_pos (show wordness (some ' ') = false from rfl),
        dmyAt_exact '/' a b c e y1 y2 y3 y4 hfa.1 hfb.1 hfc.1 hfe.1
          hfy1.1 hfy2.1 hfy3.1 hfy4.1]
    -- the capture parses back to (M, d, Y)
    have hsplit : splitOnChar '/' (fmtMDY M d Y) =
        [pad2 M, pad2 d, natChars Y] := by
      have h1 : ('/' : Char) ∉ pad2 M := fun hm => (pad2_char_facts M '/' hm).2.2.1 rfl
      have h2 : ('/' : Char) ∉ pad2 d := fun hm => (pad2_char_facts d '/' hm).2.2.1 rfl
      have h3 : ('/' : Char) ∉ natChars Y := fun hm =>
        (natChars_char_facts Y '/' hm).2.2.1 rfl
      have hfmt : fmtMDY M d Y = pad2 M ++ '/' :: (pad2 d ++ '/' :: natChars Y) := by
        rw [fmtMDY]
        simp
      rw [hfmt]
      rw [splitOnChar_append '/' (pad2 M) _ h1,
        splitOnChar_append '/' (pad2 d) _ h2,
        splitOnChar_not_mem '/' (natChars Y) h3]
    have hparse : jsDateParse (fmtMDY M d Y) = some (M, d, Y) := by
      have hmem : ('/' : Char) ∈ fmtMDY M d Y := by
        rw [hD]
        exact List.mem_cons_of_mem _ (List.mem_cons_of_mem _ (List.mem_cons_self _ _))
      unfold jsDateParse
      rw [if_pos (List.elem_iff.2 hmem)]
      unfold parseNumericDate
      rw [hsplit]
      dsimp only
      have hnat : (natChars Y).all Char.isDigit = true :=
        List.all_eq_true.2 (fun c0 hc0 => natChars_all_digit Y c0 hc0)
      have hpm : (pad2 M).all Char.isDigit = true :=
        List.all_eq_true.2 (fun c0 hc0 => pad2_all_digit M c0 hc0)
      have hpd : (pad2 d).all Char.isDigit = true :=
        List.all_eq_true.2 (fun c0 hc0 => pad2_all_digit d c0 hc0)
      have hem : (pad2 M).isEmpty = false := by
        rw [hab]
        rfl
      have hed : (pad2 d).isEmpty = false := by
        rw [hce]
        rfl
      have hey : (natChars Y).isEmpty = false := by
        rw [hY]
        rfl
      rw [if_neg (by simp [hem, hed, hey, hpm, hpd, hnat])]
      rw [digitsToNat_pad2 M, digitsToNat_pad2 d, digitsToNat_natChars Y]
      rw [if_pos (by simp [hM1, hM2, hd1, hd2])]
    -- assemble
    unfold extractValueFromMessage
    rw [htype]
    show extractDateValue (jsTrim ("the date is ".data ++ fmtMDY M d Y)) = _
    rw [htrim]
    unfold extractDateValue
    rw [hscan]
    show (match jsDateParse (fmtMDY M d Y) with
      | some (m, d0, y) => some (fmtMDY m d0 y)
      | none =>
        match (scanBW (dmyAt '-') none
            ("the date is ".data ++ fmtMDY M d Y)).bind jsDateParse with
        | some (m, d0, y) => some (fmtMDY m d0 y)
        | none =>
          match (scanBW monthMatchAt none
              ("the date is ".data ++ fmtMDY M d Y)).bind jsDateParse with
          | some (m, d0, y) => some (fmtMDY m d0 y)
          | none => none) = some (fmtMDY M d Y)
    rw [hparse]
  · intro p htype
    unfold extractValueFromMessage
    rw [htype]
    show extractDateValue (jsTrim "December 15, 2024".data) = some "12/15/2024".data
    decide

theorem claim6_date_extraction_witness :
    extractValueFromMessage ("the date is ".data ++ fmtMDY 12 15 2024)
        ⟨"DATE".data, none, none, FieldType.date, "Date".data⟩ =
      some (fmtMDY 12 15 2024) ∧
    extractValueFromMessage "December 15, 2024".data
        ⟨"SIGNING_DATE".data, none, none, FieldType.date, "Date".data⟩ =
      some "12/15/2024".data :=
  ⟨claim6_date_extraction.1 12 15 2024
      ⟨"DATE".data, none, none, FieldType.date, "Date".data⟩
      rfl (by decide) (by decide) (by decide) (by decide) (by decide) (by decide),
   claim6_date_extraction.2
      ⟨"SIGNING_DATE".data, none, none, FieldType.date, "Date".data⟩ rfl⟩

end Legal
